import Mathlib

/-!
Verification of the a2a-python core specification against a shallow
embedding of the code.  The repository ships only its test suite under
`src/tests`; the library modules themselves (`a2a.server.events.event_queue`,
`a2a.utils.proto_utils`, `a2a.utils.error_handlers`,
`a2a.server.apps.rest`) are not present, so those parts are modelled from
the specification (and, where the repository's own tests pin the observable
behaviour, from the tests), as marked in each doc comment.
-/

set_option maxRecDepth 4096

namespace A2A

/-! ## Domain events

Modelled from the spec: §3 defines `Event` as a variant over
`{Message, Task, TaskStatusUpdateEvent, TaskArtifactUpdateEvent, Error}`.
The event queue treats events opaquely, so only minimal payloads are kept. -/

/-- Modelled from the spec: the `Event` variant that flows through the
event queue (§3).  Payloads are the identifying fields only; the queue
never inspects them. -/
inductive Event where
  | message (messageId : String)
  | task (id : String)
  | statusUpdate (taskId : String) (final : Bool)
  | artifactUpdate (taskId : String) (artifactId : String)
  | error (msg : String)
deriving DecidableEq, Repr

/-- Modelled from the spec: the fixed default buffer capacity of an
`EventQueue` (§4.1, "default capacity is a fixed constant";
`DEFAULT_MAX_QUEUE_SIZE` in `a2a.server.events.event_queue`). -/
def DEFAULT_MAX_QUEUE_SIZE : Nat := 1024

mutual
/-- Modelled from the spec: the state of an `EventQueue` (§4.1) — an
internal FIFO buffer, the tapped child queues in creation order, the
closed flag, and the bounded capacity `max_queue_size`. -/
inductive EventQueue where
  | mk (buf : List Event) (children : EQList) (closed : Bool) (maxsize : Nat)

/-- Children of an `EventQueue`, in the order the taps were created. -/
inductive EQList where
  | nil
  | cons (q : EventQueue) (tl : EQList)
end

namespace EventQueue

/-- Buffered events of a queue, oldest first. -/
def buf : EventQueue → List Event
  | .mk b _ _ _ => b

/-- Child queues registered by `tap`. -/
def children : EventQueue → EQList
  | .mk _ cs _ _ => cs

/-- Closed flag; mirrors `is_closed()`. -/
def is_closed : EventQueue → Bool
  | .mk _ _ c _ => c

/-- Buffer capacity the queue was constructed with. -/
def maxsize : EventQueue → Nat
  | .mk _ _ _ m => m

end EventQueue

namespace EQList

/-- Append a queue at the end of a child list. -/
def append (l : EQList) (q : EventQueue) : EQList :=
  match l with
  | .nil => .cons q .nil
  | .cons x tl => .cons x (tl.append q)

/-- Number of children. -/
def length : EQList → Nat
  | .nil => 0
  | .cons _ tl => tl.length + 1

/-- Element of a child list at an index (0-based, creation order). -/
def get? : EQList → Nat → Option EventQueue
  | .nil, _ => none
  | .cons q _, 0 => some q
  | .cons _ tl, i + 1 => tl.get? i

end EQList

mutual
/-- Modelled from the spec: `enqueue(event)` (§4.1) appends the event to
the internal buffer and to every currently-tapped child queue, in the
order children were created; if the queue is closed the event is silently
dropped (a warning is observable, not an error).  Blocking on a full
buffer is a liveness concern outside this functional model: the function
describes the state after an enqueue completes. -/
def enqueue_event (e : Event) : EventQueue → EventQueue
  | .mk b cs false m => .mk (b ++ [e]) (enqueueChildren e cs) false m
  | .mk b cs true m => .mk b cs true m

/-- Propagate an enqueue to each tapped child (recursively, since each
child enqueues into its own children). -/
def enqueueChildren (e : Event) : EQList → EQList
  | .nil => .nil
  | .cons q tl => .cons (enqueue_event e q) (enqueueChildren e tl)
end

/-- Fold a sequence of enqueues over a queue, in order. -/
def enqueueAll (es : List Event) (q : EventQueue) : EventQueue :=
  es.foldl (fun acc e => enqueue_event e acc) q

/-- Modelled from the spec: `tap()` (§4.1) creates and registers a new
child queue that receives every event enqueued from this point forward.
The child is a fresh default-constructed queue (`EventQueue()`), so its
capacity is `DEFAULT_MAX_QUEUE_SIZE` regardless of the parent's; the pair
returned is (new child, updated parent). -/
def tap : EventQueue → EventQueue × EventQueue
  | .mk b cs c m =>
      (.mk [] .nil false DEFAULT_MAX_QUEUE_SIZE,
       .mk b (cs.append (.mk [] .nil false DEFAULT_MAX_QUEUE_SIZE)) c m)

/-- Failure raised by a no-wait dequeue: `asyncio.QueueEmpty` (with the
message the implementation attaches, empty for a plain empty-queue
failure) or, on Python ≥ 3.13 only, `asyncio.QueueShutDown`. -/
inductive DequeueErr where
  | queueEmpty (msg : String)
  | queueShutDown
deriving DecidableEq, Repr

/-- Exception class of a dequeue failure, forgetting the message. -/
def DequeueErr.kind : DequeueErr → Bool
  | .queueEmpty _ => false
  | .queueShutDown => true

/-- Modelled from the spec: `dequeue(no_wait=true)` (§4.1) returns the
oldest buffered event, or fails when the buffer is empty.  The failure
depends on the Python version, as the test fixture
`expected_queue_closed_exception` records: on Python < 3.13 (`py313 =
false`) a closed-and-empty queue raises `asyncio.QueueEmpty` with message
"Queue is closed.", on Python ≥ 3.13 it raises `asyncio.QueueShutDown`;
an open empty queue raises a plain `asyncio.QueueEmpty` either way. -/
def dequeue_event_no_wait (py313 : Bool) : EventQueue → Except DequeueErr (Event × EventQueue)
  | .mk [] _ true _ =>
      .error (if py313 then .queueShutDown else .queueEmpty "Queue is closed.")
  | .mk [] _ false _ => .error (.queueEmpty "")
  | .mk (e :: rest) cs c m => .ok (e, .mk rest cs c m)

/-- Repeatedly dequeue (no-wait) until a failure, collecting the events
delivered, with explicit fuel. -/
def drainAux : Nat → EventQueue → List Event
  | 0, _ => []
  | fuel + 1, q =>
      match dequeue_event_no_wait true q with
      | .ok (e, q1) => e :: drainAux fuel q1
      | .error _ => []

/-- Everything a consumer obtains by dequeuing until the queue reports
empty/closed. -/
def drain (q : EventQueue) : List Event :=
  drainAux q.buf.length q

mutual
/-- Modelled from the spec: `close(immediate=false)` (§4.1) — graceful
close.  Idempotent: an already-closed queue is returned unchanged with
nothing flushed.  Otherwise the queue is marked closed, all buffered
events are flushed to a drain (the first component is exactly what was
delivered), and every tapped child is closed gracefully in turn. -/
def closeGraceful : EventQueue → List Event × EventQueue
  | .mk b cs true m => ([], .mk b cs true m)
  | .mk b cs false m => (b, .mk [] (closeGracefulChildren cs) true m)

/-- Graceful close of each child; each child's flushed events go to that
child's own consumers. -/
def closeGracefulChildren : EQList → EQList
  | .nil => .nil
  | .cons q tl => .cons (closeGraceful q).2 (closeGracefulChildren tl)
end

mutual
/-- Modelled from the spec: `close(immediate=true)` (§4.1) — discards all
buffered-but-undelivered events, marks the queue closed, and propagates
the immediate close to every tapped child.  Idempotent: an already-closed
queue is returned unchanged. -/
def closeImmediate : EventQueue → EventQueue
  | .mk b cs true m => .mk b cs true m
  | .mk _ cs false m => .mk [] (closeImmediateChildren cs) true m

/-- Immediate close of each tapped child. -/
def closeImmediateChildren : EQList → EQList
  | .nil => .nil
  | .cons q tl => .cons (closeImmediate q) (closeImmediateChildren tl)
end

mutual
/-- Recursively: this queue and every (transitive) child is still open. -/
def allOpen : EventQueue → Bool
  | .mk _ cs c _ => !c && allOpenChildren cs

def allOpenChildren : EQList → Bool
  | .nil => true
  | .cons q tl => allOpen q && allOpenChildren tl
end

mutual
/-- Recursively: this queue and every (transitive) child is closed. -/
def allClosed : EventQueue → Bool
  | .mk _ cs c _ => c && allClosedChildren cs

def allClosedChildren : EQList → Bool
  | .nil => true
  | .cons q tl => allClosed q && allClosedChildren tl
end

mutual
/-- Recursively: every buffer in the tree is empty. -/
def allEmptyBuf : EventQueue → Bool
  | .mk b cs _ _ => b.isEmpty && allEmptyBufChildren cs

def allEmptyBufChildren : EQList → Bool
  | .nil => true
  | .cons q tl => allEmptyBuf q && allEmptyBufChildren tl
end

/-- Enqueue a sequence of events into each child of a child list, in order. -/
def enqueueAllChildren (es : List Event) (cs : EQList) : EQList :=
  es.foldl (fun acc e => enqueueChildren e acc) cs

/-! ### Event-queue lemmas -/

theorem drainAux_mk (b : List Event) (cs : EQList) (c : Bool) (m : Nat) :
    drainAux b.length (.mk b cs c m) = b := by
  induction b generalizing cs c m with
  | nil => rfl
  | cons e rest ih =>
      simp [drainAux, dequeue_event_no_wait, ih]

theorem drain_mk (b : List Event) (cs : EQList) (c : Bool) (m : Nat) :
    drain (.mk b cs c m) = b := by
  simpa [drain, EventQueue.buf] using drainAux_mk b cs c m

theorem enqueueAll_cons (e : Event) (es : List Event) (q : EventQueue) :
    enqueueAll (e :: es) q = enqueueAll es (enqueue_event e q) := rfl

theorem enqueueAllChildren_cons (e : Event) (es : List Event) (cs : EQList) :
    enqueueAllChildren (e :: es) cs = enqueueAllChildren es (enqueueChildren e cs) := rfl

theorem enqueueAllChildren_nil_list (es : List Event) :
    enqueueAllChildren es .nil = .nil := by
  induction es with
  | nil => rfl
  | cons e tl ih => simpa [enqueueAllChildren_cons, enqueueChildren] using ih

theorem enqueueAll_mk_open (es : List Event) (b : List Event) (cs : EQList) (m : Nat) :
    enqueueAll es (.mk b cs false m) = .mk (b ++ es) (enqueueAllChildren es cs) false m := by
  induction es generalizing b cs with
  | nil => simp [enqueueAll, enqueueAllChildren]
  | cons e tl ih =>
      rw [enqueueAll_cons, enqueueAllChildren_cons]
      show enqueueAll tl (.mk (b ++ [e]) (enqueueChildren e cs) false m) = _
      rw [ih]
      simp

/-- Parent state after a `tap()`, discarding the returned child handle
(the child stays reachable as the last element of `children`). -/
def tapParent (q : EventQueue) : EventQueue := (tap q).2

/-- Parent state after `k` successive `tap()` calls. -/
def tapTimes : Nat → EventQueue → EventQueue
  | 0, q => q
  | k + 1, q => tapTimes k (tapParent q)

/-- Child list after registering `k` fresh tapped queues at the end. -/
def appendFreshN : Nat → EQList → EQList
  | 0, cs => cs
  | k + 1, cs =>
      appendFreshN k (cs.append (.mk [] .nil false DEFAULT_MAX_QUEUE_SIZE))

theorem length_append : ∀ (cs : EQList) (q : EventQueue),
    (cs.append q).length = cs.length + 1
  | .nil, _ => rfl
  | .cons x tl, q => by
      simp [EQList.append, EQList.length, length_append tl q]

theorem get?_append_lt : ∀ (cs : EQList) (q : EventQueue) (i : Nat),
    i < cs.length → (cs.append q).get? i = cs.get? i
  | .nil, _, i, h => absurd h (by simp [EQList.length])
  | .cons x tl, q, 0, _ => rfl
  | .cons x tl, q, i + 1, h =>
      get?_append_lt tl q i (by simpa [EQList.length] using h)

theorem get?_append_self : ∀ (cs : EQList) (q : EventQueue),
    (cs.append q).get? cs.length = some q
  | .nil, _ => rfl
  | .cons _ tl, q => get?_append_self tl q

theorem tapTimes_mk : ∀ (k : Nat) (b : List Event) (cs : EQList) (c : Bool) (m : Nat),
    tapTimes k (.mk b cs c m) = .mk b (appendFreshN k cs) c m
  | 0, _, _, _, _ => rfl
  | k + 1, b, cs, c, m => by
      show tapTimes k (tapParent (.mk b cs c m)) = _
      rw [show tapParent (.mk b cs c m)
          = .mk b (cs.append (.mk [] .nil false DEFAULT_MAX_QUEUE_SIZE)) c m from rfl]
      exact tapTimes_mk k b _ c m

theorem get?_appendFreshN_of_lt : ∀ (k : Nat) (cs : EQList) (i : Nat),
    i < cs.length → (appendFreshN k cs).get? i = cs.get? i
  | 0, _, _, _ => rfl
  | k + 1, cs, i, h => by
      have h1 : i < (cs.append (.mk [] .nil false DEFAULT_MAX_QUEUE_SIZE)).length := by
        rw [length_append]
        omega
      show (appendFreshN k (cs.append _)).get? i = _
      rw [get?_appendFreshN_of_lt k _ i h1, get?_append_lt cs _ i h]

theorem get?_appendFreshN_fresh : ∀ (k j : Nat) (cs : EQList), j < k →
    (appendFreshN k cs).get? (cs.length + j)
      = some (.mk [] .nil false DEFAULT_MAX_QUEUE_SIZE)
  | 0, j, _, h => absurd h (Nat.not_lt_zero j)
  | k + 1, 0, cs, _ => by
      show (appendFreshN k (cs.append _)).get? (cs.length + 0) = _
      rw [Nat.add_zero,
        get?_appendFreshN_of_lt k _ cs.length (by rw [length_append]; omega)]
      exact get?_append_self cs _
  | k + 1, j + 1, cs, h => by
      show (appendFreshN k (cs.append _)).get? (cs.length + (j + 1)) = _
      have ih := get?_appendFreshN_fresh k j
        (cs.append (.mk [] .nil false DEFAULT_MAX_QUEUE_SIZE)) (by omega)
      rw [length_append] at ih
      rw [show cs.length + (j + 1) = cs.length + 1 + j by omega]
      exact ih

theorem get?_enqueueChildren : ∀ (e : Event) (cs : EQList) (i : Nat),
    (enqueueChildren e cs).get? i = (cs.get? i).map (enqueue_event e)
  | _, .nil, _ => rfl
  | _, .cons _ _, 0 => rfl
  | e, .cons _ tl, i + 1 => get?_enqueueChildren e tl i

theorem get?_enqueueAllChildren (es : List Event) (cs : EQList) (i : Nat) :
    (enqueueAllChildren es cs).get? i = (cs.get? i).map (enqueueAll es) := by
  induction es generalizing cs with
  | nil => cases h : cs.get? i <;> simp [enqueueAllChildren, enqueueAll, h]
  | cons e tl ih =>
      rw [enqueueAllChildren_cons, ih, get?_enqueueChildren]
      cases h : cs.get? i <;> simp [h, enqueueAll_cons]

/-- **C1.** For every event queue (any pre-existing children, any
capacity), every number `k` of child queues created by `tap()` before the
first enqueue, and every sequence of events then enqueued via
`enqueue_event`: no-wait dequeuing drains exactly those events, each
exactly once, in FIFO order, from the parent and from each of the `k`
tapped children (the child at position `cs.length + j` for every
`j < k`). -/
theorem enqueue_dequeue_fifo_parent_and_each_tap
    (es : List Event) (cs : EQList) (m k j : Nat) (hj : j < k) :
    drain (enqueueAll es (tapTimes k (.mk [] cs false m))) = es ∧
    ((enqueueAll es (tapTimes k (.mk [] cs false m))).children.get?
        (cs.length + j)).map drain = some es := by
  rw [tapTimes_mk, enqueueAll_mk_open]
  constructor
  · simpa using drain_mk es _ false m
  · show ((enqueueAllChildren es (appendFreshN k cs)).get? (cs.length + j)).map drain
        = some es
    rw [get?_enqueueAllChildren, get?_appendFreshN_fresh k j cs hj]
    simp only [Option.map_map, Option.map_some', Function.comp]
    rw [enqueueAll_mk_open, enqueueAllChildren_nil_list]
    simpa using congrArg some (drain_mk es .nil false DEFAULT_MAX_QUEUE_SIZE)

/-- Witness for C1, mirroring the repository's test: two children tapped
before two enqueues, with both children (positions 0 and 1) and the
parent drained to the same two events in order. -/
theorem enqueue_dequeue_fifo_parent_and_each_tap_witness :
    ((0 : Nat) < 2 ∧
      drain (enqueueAll [.message "111", .task "123"]
        (tapTimes 2 (.mk [] .nil false 1024))) = [.message "111", .task "123"] ∧
      ((enqueueAll [.message "111", .task "123"]
          (tapTimes 2 (.mk [] .nil false 1024))).children.get? 0).map drain
        = some [.message "111", .task "123"]) ∧
    ((1 : Nat) < 2 ∧
      ((enqueueAll [.message "111", .task "123"]
          (tapTimes 2 (.mk [] .nil false 1024))).children.get? 1).map drain
        = some [.message "111", .task "123"]) :=
  ⟨⟨by decide,
    (enqueue_dequeue_fifo_parent_and_each_tap
      [.message "111", .task "123"] .nil 1024 2 0 (by decide)).1,
    (enqueue_dequeue_fifo_parent_and_each_tap
      [.message "111", .task "123"] .nil 1024 2 0 (by decide)).2⟩,
   by decide,
   (enqueue_dequeue_fifo_parent_and_each_tap
      [.message "111", .task "123"] .nil 1024 2 1 (by decide)).2⟩

mutual
theorem closeGraceful_allClosed : ∀ q : EventQueue, allOpen q = true →
    allClosed (closeGraceful q).2 = true ∧ allEmptyBuf (closeGraceful q).2 = true
  | .mk b cs false m, h => by
      have hc : allOpenChildren cs = true := by simpa [allOpen] using h
      have hrec := closeGracefulChildren_allClosed cs hc
      simp [closeGraceful, allClosed, allEmptyBuf, hrec.1, hrec.2]
  | .mk b cs true m, h => by simp [allOpen] at h

theorem closeGracefulChildren_allClosed : ∀ l : EQList, allOpenChildren l = true →
    allClosedChildren (closeGracefulChildren l) = true ∧
    allEmptyBufChildren (closeGracefulChildren l) = true
  | .nil, _ => by
      simp [closeGracefulChildren, allClosedChildren, allEmptyBufChildren]
  | .cons q tl, h => by
      have h1 : allOpen q = true ∧ allOpenChildren tl = true := by
        simpa [allOpenChildren, Bool.and_eq_true] using h
      have hq := closeGraceful_allClosed q h1.1
      have ht := closeGracefulChildren_allClosed tl h1.2
      simp [closeGracefulChildren, allClosedChildren, allEmptyBufChildren,
        hq.1, hq.2, ht.1, ht.2]
end

mutual
theorem closeImmediate_allClosed : ∀ q : EventQueue, allOpen q = true →
    allClosed (closeImmediate q) = true ∧ allEmptyBuf (closeImmediate q) = true
  | .mk b cs false m, h => by
      have hc : allOpenChildren cs = true := by simpa [allOpen] using h
      have hrec := closeImmediateChildren_allClosed cs hc
      simp [closeImmediate, allClosed, allEmptyBuf, hrec.1, hrec.2]
  | .mk b cs true m, h => by simp [allOpen] at h

theorem closeImmediateChildren_allClosed : ∀ l : EQList, allOpenChildren l = true →
    allClosedChildren (closeImmediateChildren l) = true ∧
    allEmptyBufChildren (closeImmediateChildren l) = true
  | .nil, _ => by
      simp [closeImmediateChildren, allClosedChildren, allEmptyBufChildren]
  | .cons q tl, h => by
      have h1 : allOpen q = true ∧ allOpenChildren tl = true := by
        simpa [allOpenChildren, Bool.and_eq_true] using h
      have hq := closeImmediate_allClosed q h1.1
      have ht := closeImmediateChildren_allClosed tl h1.2
      simp [closeImmediateChildren, allClosedChildren, allEmptyBufChildren,
        hq.1, hq.2, ht.1, ht.2]
end

theorem closeGraceful_flushes (b : List Event) (cs : EQList) (m : Nat) :
    (closeGraceful (.mk b cs false m)).1 = b := rfl

/-- **C4.** On an open queue tree: graceful close flushes exactly the
buffered events to a drain (first component of `closeGraceful`), leaves
every buffer in the tree empty, and recursively closes every tapped
child; immediate close marks the whole tree closed with every buffer
(including the queue's own) empty on return. -/
theorem close_graceful_and_immediate_spec (q : EventQueue) (h : allOpen q = true) :
    ((closeGraceful q).1 = q.buf ∧
      allClosed (closeGraceful q).2 = true ∧
      allEmptyBuf (closeGraceful q).2 = true) ∧
    (allClosed (closeImmediate q) = true ∧
      allEmptyBuf (closeImmediate q) = true) := by
  refine ⟨⟨?_, (closeGraceful_allClosed q h).1, (closeGraceful_allClosed q h).2⟩,
    (closeImmediate_allClosed q h).1, (closeImmediate_allClosed q h).2⟩
  cases q with
  | mk b cs c m =>
      cases c with
      | false => rfl
      | true => simp [allOpen] at h

/-- Witness for C4 at a concrete two-level queue holding buffered events. -/
theorem close_graceful_and_immediate_spec_witness :
    allOpen (.mk [.message "m1", .task "t1"]
      (.cons (.mk [.message "m1"] .nil false 1024) .nil) false 1024) = true ∧
    (((closeGraceful (.mk [.message "m1", .task "t1"]
        (.cons (.mk [.message "m1"] .nil false 1024) .nil) false 1024)).1
        = (EventQueue.mk [.message "m1", .task "t1"]
            (.cons (.mk [.message "m1"] .nil false 1024) .nil) false 1024).buf ∧
      allClosed (closeGraceful (.mk [.message "m1", .task "t1"]
        (.cons (.mk [.message "m1"] .nil false 1024) .nil) false 1024)).2 = true ∧
      allEmptyBuf (closeGraceful (.mk [.message "m1", .task "t1"]
        (.cons (.mk [.message "m1"] .nil false 1024) .nil) false 1024)).2 = true) ∧
    (allClosed (closeImmediate (.mk [.message "m1", .task "t1"]
        (.cons (.mk [.message "m1"] .nil false 1024) .nil) false 1024)) = true ∧
      allEmptyBuf (closeImmediate (.mk [.message "m1", .task "t1"]
        (.cons (.mk [.message "m1"] .nil false 1024) .nil) false 1024)) = true)) :=
  ⟨rfl, close_graceful_and_immediate_spec _ rfl⟩

/-- **C5 (counterexample).** On Python < 3.13 the two no-wait failure
kinds are not distinct: dequeuing an empty closed queue and an empty open
queue both raise `asyncio.QueueEmpty` (the closed case differs only in
its message), refuting the claimed distinctness as stated. -/
theorem dequeue_error_kinds_py312_not_distinct :
    dequeue_event_no_wait false (.mk [] .nil true 1024)
      = .error (.queueEmpty "Queue is closed.") ∧
    dequeue_event_no_wait false (.mk [] .nil false 1024)
      = .error (.queueEmpty "") ∧
    DequeueErr.kind (.queueEmpty "Queue is closed.")
      = DequeueErr.kind (.queueEmpty "") :=
  ⟨rfl, rfl, rfl⟩

/-- **C5 (amended).** `dequeue_event(no_wait=True)` on an empty open
queue fails with the empty-queue error; on an empty closed queue it fails
with the closed-queue error.  The two failure kinds are distinct
exception classes on Python ≥ 3.13 (`QueueEmpty` vs `QueueShutDown`); on
earlier Pythons the closed case is a `QueueEmpty` distinguished only by
the message "Queue is closed.". -/
theorem dequeue_error_kinds_spec (cs : EQList) (m : Nat) :
    dequeue_event_no_wait true (.mk [] cs false m) = .error (.queueEmpty "") ∧
    dequeue_event_no_wait true (.mk [] cs true m) = .error .queueShutDown ∧
    DequeueErr.kind .queueShutDown ≠ DequeueErr.kind (.queueEmpty "") ∧
    dequeue_event_no_wait false (.mk [] cs true m)
      = .error (.queueEmpty "Queue is closed.") :=
  ⟨rfl, rfl, by decide, rfl⟩

/-- **C10.** The child queue created by `tap()` always has capacity
`DEFAULT_MAX_QUEUE_SIZE`, whatever capacity the parent was constructed
with; so when the parent's capacity differs from the default, the child's
backpressure bound differs from its parent's. -/
theorem tap_child_default_maxsize (b : List Event) (cs : EQList) (c : Bool) (m : Nat) :
    ((tap (.mk b cs c m)).1).maxsize = DEFAULT_MAX_QUEUE_SIZE ∧
    (m ≠ DEFAULT_MAX_QUEUE_SIZE → ((tap (.mk b cs c m)).1).maxsize ≠ m) := by
  refine ⟨rfl, ?_⟩
  intro hm
  simpa [tap, EventQueue.maxsize] using fun h => hm h.symm

/-- Witness for C10 at a parent constructed with capacity 123. -/
theorem tap_child_default_maxsize_witness :
    ((tap (.mk [] .nil false 123)).1).maxsize = DEFAULT_MAX_QUEUE_SIZE ∧
    ((tap (.mk [] .nil false 123)).1).maxsize ≠ 123 :=
  ⟨(tap_child_default_maxsize [] .nil false 123).1,
   (tap_child_default_maxsize [] .nil false 123).2 (by decide)⟩

/-! ## TaskState enum mapping (Protocol Translator, §4.2) -/

/-- Modelled from the spec: the domain `TaskState` enumeration (§3):
`{submitted, working, input_required, completed, canceled, failed,
rejected, unknown}`; `unknown` is the sentinel for an
unrecognized/unspecified wire value. -/
inductive TaskState where
  | submitted
  | working
  | input_required
  | completed
  | canceled
  | failed
  | rejected
  | unknown
deriving DecidableEq, Repr

/-- Modelled from the spec: the gRPC wire `TaskState` enum with its
explicit `TASK_STATE_UNSPECIFIED` sentinel (§4.2).  The wire encoding has
no value for `rejected` — §3/§9 record that "certain wire encodings
collapse" `rejected` and `unknown`, and the enum round-trip test
`test_enum_conversions` excludes exactly those two domain values. -/
inductive ProtoTaskState where
  | TASK_STATE_UNSPECIFIED
  | TASK_STATE_SUBMITTED
  | TASK_STATE_WORKING
  | TASK_STATE_INPUT_REQUIRED
  | TASK_STATE_COMPLETED
  | TASK_STATE_CANCELLED
  | TASK_STATE_FAILED
deriving DecidableEq, Repr

/-- Modelled from the spec: `ToProto.task_state` — each mapped domain
value goes to its wire value one-to-one; `unknown`, and `rejected` (which
this wire encoding collapses), go to the `TASK_STATE_UNSPECIFIED`
sentinel. -/
def ToProto.task_state : TaskState → ProtoTaskState
  | .submitted => .TASK_STATE_SUBMITTED
  | .working => .TASK_STATE_WORKING
  | .input_required => .TASK_STATE_INPUT_REQUIRED
  | .completed => .TASK_STATE_COMPLETED
  | .canceled => .TASK_STATE_CANCELLED
  | .failed => .TASK_STATE_FAILED
  | .rejected => .TASK_STATE_UNSPECIFIED
  | .unknown => .TASK_STATE_UNSPECIFIED

/-- Modelled from the spec: `FromProto.task_state` — decoding the
`TASK_STATE_UNSPECIFIED` sentinel yields the domain's `unknown`; all
other wire values decode one-to-one. -/
def FromProto.task_state : ProtoTaskState → TaskState
  | .TASK_STATE_UNSPECIFIED => .unknown
  | .TASK_STATE_SUBMITTED => .submitted
  | .TASK_STATE_WORKING => .working
  | .TASK_STATE_INPUT_REQUIRED => .input_required
  | .TASK_STATE_COMPLETED => .completed
  | .TASK_STATE_CANCELLED => .canceled
  | .TASK_STATE_FAILED => .failed

/-- **C2 (counterexample).** The claim fails at `TaskState.rejected`:
the wire encoding collapses `rejected` to the sentinel, so
encode-then-decode yields `unknown`, not `rejected`. -/
theorem task_state_rejected_no_roundtrip :
    FromProto.task_state (ToProto.task_state .rejected) = .unknown ∧
    FromProto.task_state (ToProto.task_state .rejected) ≠ .rejected := by
  decide

/-- **C2 (amended).** For every `TaskState` other than `unknown` and
`rejected`, encoding to the wire enum and decoding yields the same value;
decoding `TASK_STATE_UNSPECIFIED` yields `unknown`, and encoding
`unknown` (like `rejected`, which this wire encoding collapses) yields
`TASK_STATE_UNSPECIFIED`. -/
theorem task_state_roundtrip_spec (s : TaskState)
    (h1 : s ≠ .unknown) (h2 : s ≠ .rejected) :
    FromProto.task_state (ToProto.task_state s) = s ∧
    FromProto.task_state .TASK_STATE_UNSPECIFIED = .unknown ∧
    ToProto.task_state .unknown = .TASK_STATE_UNSPECIFIED := by
  refine ⟨?_, rfl, rfl⟩
  cases s <;> first | rfl | exact absurd rfl h1 | exact absurd rfl h2

/-- Witness for C2 (amended) at `TaskState.submitted`. -/
theorem task_state_roundtrip_spec_witness :
    (TaskState.submitted ≠ .unknown ∧ TaskState.submitted ≠ .rejected) ∧
    (FromProto.task_state (ToProto.task_state .submitted) = .submitted ∧
      FromProto.task_state .TASK_STATE_UNSPECIFIED = .unknown ∧
      ToProto.task_state .unknown = .TASK_STATE_UNSPECIFIED) :=
  ⟨⟨by decide, by decide⟩,
   task_state_roundtrip_spec .submitted (by decide) (by decide)⟩

/-! ## Error taxonomy, Error Mapper and REST error handling (§4.3, §7) -/

/-- Modelled from the spec: the error taxonomy (§3/§7):
`InvalidRequest, MethodNotFound, InvalidParams, TaskNotFound,
UnsupportedOperation, Internal` (the `*Error` classes of `a2a.types`). -/
inductive A2AErrorKind where
  | InvalidRequestError
  | MethodNotFoundError
  | InvalidParamsError
  | TaskNotFoundError
  | UnsupportedOperationError
  | InternalError
deriving DecidableEq, Repr

/-- Modelled from the spec: the static table `A2AErrorToHttpStatus`
(§4.3) mapping each error kind to an HTTP status.  Totality is the
totality of this function over the taxonomy. -/
def A2AErrorToHttpStatus : A2AErrorKind → Nat
  | .InvalidRequestError => 400
  | .MethodNotFoundError => 404
  | .InvalidParamsError => 400
  | .TaskNotFoundError => 404
  | .UnsupportedOperationError => 501
  | .InternalError => 500

/-- **C7.** The error-to-HTTP-status table assigns `InvalidRequest→400`,
`MethodNotFound→404`, `TaskNotFound→404`, `InvalidParams→400`,
`Internal→500`, and is total over the taxonomy: every kind gets an HTTP
error status (4xx or 5xx). -/
theorem a2a_error_to_http_status_spec :
    A2AErrorToHttpStatus .InvalidRequestError = 400 ∧
    A2AErrorToHttpStatus .MethodNotFoundError = 404 ∧
    A2AErrorToHttpStatus .TaskNotFoundError = 404 ∧
    A2AErrorToHttpStatus .InvalidParamsError = 400 ∧
    A2AErrorToHttpStatus .InternalError = 500 ∧
    (∀ k : A2AErrorKind,
      400 ≤ A2AErrorToHttpStatus k ∧ A2AErrorToHttpStatus k ≤ 599) := by
  refine ⟨rfl, rfl, rfl, rfl, rfl, ?_⟩
  intro k
  cases k <;> exact ⟨by decide, by decide⟩

/-- Outcome of awaiting the coroutine wrapped by `rest_error_handler`:
it returns a value, raises a domain-tagged `ServerError` carrying an
error kind and message, or raises any other exception carrying its own
message. -/
inductive HandlerOutcome (α : Type) where
  | ok (a : α)
  | serverError (k : A2AErrorKind) (msg : String)
  | unexpected (msg : String)

/-- Shape of the `JSONResponse` the REST error handler produces: an HTTP
status code and the `message` field of the JSON body. -/
structure JSONResponse where
  status_code : Nat
  message : String
deriving DecidableEq, Repr

/-- Modelled from the spec: the `rest_error_handler` decorator (§4.4/§7
and `a2a.utils.error_handlers`) — a `ServerError` is mapped through
`A2AErrorToHttpStatus` with the error's own message in the JSON body; any
other exception is re-reported as an opaque HTTP 500 whose body is the
fixed text "unknown exception" (no internal detail); a normal result
passes through. -/
def rest_error_handler {α : Type} : HandlerOutcome α → Sum α JSONResponse
  | .ok a => .inl a
  | .serverError k msg => .inr ⟨A2AErrorToHttpStatus k, msg⟩
  | .unexpected _ => .inr ⟨500, "unknown exception"⟩

/-- **C8.** A coroutine failing with a `ServerError` produces a JSON
response with the Error Mapper's status for that kind and the error's own
message; a coroutine failing with any other exception produces an HTTP
500 whose body is the fixed text "unknown exception", independent of the
raised exception's message (so no internal detail can cross the wire). -/
theorem rest_error_handler_spec (k : A2AErrorKind) (msg detail detail2 : String) :
    rest_error_handler (α := Unit) (.serverError k msg)
      = .inr ⟨A2AErrorToHttpStatus k, msg⟩ ∧
    rest_error_handler (α := Unit) (.unexpected detail)
      = .inr ⟨500, "unknown exception"⟩ ∧
    rest_error_handler (α := Unit) (.unexpected detail)
      = rest_error_handler (α := Unit) (.unexpected detail2) :=
  ⟨rfl, rfl, rfl⟩

/-! ## Resource-name parsing (Protocol Translator, §4.2, §6) -/

/-- Python `str.split('/')` on a list of characters: splits on every
slash, keeping empty segments (so an input without a slash yields one
segment). -/
def splitSlash : List Char → List (List Char)
  | [] => [[]]
  | c :: rest =>
      if c = '/' then [] :: splitSlash rest
      else
        match splitSlash rest with
        | [] => [[c]]
        | seg :: segs => (c :: seg) :: segs

/-- Tagged error raised by the Dispatcher/Translator: a `ServerError`
carrying an error kind and a human-readable message. -/
structure ServerErr where
  kind : A2AErrorKind
  message : String
deriving DecidableEq, Repr

/-- Diagnostic attached to a malformed task resource name. -/
def taskNameDiag (name : String) : String :=
  "Invalid task name format: " ++ name

/-- Diagnostic attached to a malformed push-notification-config resource
name. -/
def pushConfigNameDiag (name : String) : String :=
  "Invalid TaskPushNotificationConfig name format: " ++ name

/-- Modelled from the spec: decoding a task resource name of the shape
`tasks/{id}` (§4.2, §6; `FromProto.task_query_params` /
`FromProto.task_id_params`).  On any other shape it fails with
`InvalidParams` carrying a diagnostic naming the malformed string; it
never extracts a best-effort id. -/
def taskIdFromName (name : String) : Except ServerErr String :=
  match splitSlash name.data with
  | [seg0, seg1] =>
      if seg0 = "tasks".data then .ok (String.mk seg1)
      else .error ⟨.InvalidParamsError, taskNameDiag name⟩
  | _ => .error ⟨.InvalidParamsError, taskNameDiag name⟩

/-- Modelled from the spec: decoding a push-notification-config resource
name of the shape `tasks/{id}/pushNotificationConfigs/{cfgId}` (§4.2,
§6; `FromProto.task_push_notification_config`).  On any other shape it
fails with `InvalidParams` carrying a diagnostic naming the malformed
string; it never extracts a best-effort id. -/
def taskPushConfigFromName (name : String) : Except ServerErr (String × String) :=
  match splitSlash name.data with
  | [seg0, seg1, seg2, seg3] =>
      if seg0 = "tasks".data ∧ seg2 = "pushNotificationConfigs".data then
        .ok (String.mk seg1, String.mk seg3)
      else .error ⟨.InvalidParamsError, pushConfigNameDiag name⟩
  | _ => .error ⟨.InvalidParamsError, pushConfigNameDiag name⟩

/-- Expected path shape of a task resource name, written from the spec's
words (`tasks/{id}`): exactly two slash-separated segments, the first
being `tasks`. -/
def matchesTaskNameShape (name : String) : Bool :=
  match splitSlash name.data with
  | [seg0, _] => seg0 = "tasks".data
  | _ => false

/-- Expected path shape of a push-notification-config resource name,
written from the spec's words
(`tasks/{id}/pushNotificationConfigs/{cfgId}`): exactly four
slash-separated segments with the fixed collection names in place. -/
def matchesPushConfigNameShape (name : String) : Bool :=
  match splitSlash name.data with
  | [seg0, _, seg2, _] =>
      seg0 = "tasks".data && seg2 = "pushNotificationConfigs".data
  | _ => false

/-- **C6.** For each decoder separately: every resource name that does
not match that decoder's expected path shape fails to decode with an
`InvalidParams` `ServerError` whose diagnostic message contains the
malformed resource string, and no best-effort id is ever extracted (the
result is an error, never `.ok`) — even when the name happens to be
well-formed for the other decoder. -/
theorem resource_name_invalid_params :
    (∀ name : String, matchesTaskNameShape name = false →
      taskIdFromName name = .error ⟨.InvalidParamsError, taskNameDiag name⟩ ∧
      ∃ pre, (taskNameDiag name).data = pre ++ name.data) ∧
    (∀ name : String, matchesPushConfigNameShape name = false →
      taskPushConfigFromName name
        = .error ⟨.InvalidParamsError, pushConfigNameDiag name⟩ ∧
      ∃ pre, (pushConfigNameDiag name).data = pre ++ name.data) := by
  constructor
  · intro name htask
    refine ⟨?_, "Invalid task name format: ".data, ?_⟩
    · unfold taskIdFromName
      unfold matchesTaskNameShape at htask
      rcases hsplit : splitSlash name.data with _ | ⟨seg0, _ | ⟨seg1, _ | _⟩⟩ <;>
        simp [hsplit] at htask ⊢
      intro h
      simp [h] at htask
    · simp [taskNameDiag, String.data_append]
  · intro name hpush
    refine ⟨?_, "Invalid TaskPushNotificationConfig name format: ".data, ?_⟩
    · unfold taskPushConfigFromName
      unfold matchesPushConfigNameShape at hpush
      rcases hsplit : splitSlash name.data with
        _ | ⟨seg0, _ | ⟨seg1, _ | ⟨seg2, _ | ⟨seg3, _ | _⟩⟩⟩⟩ <;>
        simp [hsplit] at hpush ⊢
      intro h1 h2
      simp [h1, h2] at hpush
    · simp [pushConfigNameDiag, String.data_append]

/-- Witness for C6: the test's malformed name `invalid-path-to-tasks/X`
under both decoders, and `tasks/123` — well-formed as a task name —
under the push-notification-config decoder, where no best-effort task id
is extracted. -/
theorem resource_name_invalid_params_witness :
    (matchesTaskNameShape "invalid-path-to-tasks/X" = false ∧
      taskIdFromName "invalid-path-to-tasks/X"
        = .error ⟨.InvalidParamsError, taskNameDiag "invalid-path-to-tasks/X"⟩ ∧
      ∃ pre, (taskNameDiag "invalid-path-to-tasks/X").data
          = pre ++ "invalid-path-to-tasks/X".data) ∧
    (matchesPushConfigNameShape "invalid-path-to-tasks/X" = false ∧
      taskPushConfigFromName "invalid-path-to-tasks/X"
        = .error ⟨.InvalidParamsError,
            pushConfigNameDiag "invalid-path-to-tasks/X"⟩ ∧
      ∃ pre, (pushConfigNameDiag "invalid-path-to-tasks/X").data
          = pre ++ "invalid-path-to-tasks/X".data) ∧
    (matchesPushConfigNameShape "tasks/123" = false ∧
      matchesTaskNameShape "tasks/123" = true ∧
      taskPushConfigFromName "tasks/123"
        = .error ⟨.InvalidParamsError, pushConfigNameDiag "tasks/123"⟩ ∧
      ∃ pre, (pushConfigNameDiag "tasks/123").data
          = pre ++ "tasks/123".data) :=
  ⟨⟨rfl, (resource_name_invalid_params.1 "invalid-path-to-tasks/X" rfl).1,
    (resource_name_invalid_params.1 "invalid-path-to-tasks/X" rfl).2⟩,
   ⟨rfl, (resource_name_invalid_params.2 "invalid-path-to-tasks/X" rfl).1,
    (resource_name_invalid_params.2 "invalid-path-to-tasks/X" rfl).2⟩,
   rfl, rfl,
   (resource_name_invalid_params.2 "tasks/123" rfl).1,
   (resource_name_invalid_params.2 "tasks/123" rfl).2⟩

/-! ## REST streaming endpoint (§6)

Modelled from the spec, amended by the repository's own REST tests: the
spec sentence for `POST /v1/message:stream` says "Server-Sent-Events
response when `Accept: text/event-stream`, else an error", but
`test_streaming_endpoint_with_invalid_content_type` pins that a request
without that header also succeeds with HTTP 200 (the adapter handles the
content type internally and does not reject on the `Accept` header). -/

/-- Response of the REST adapter's streaming route: HTTP status and the
`content-type` of the response. -/
structure RestResponse where
  status_code : Nat
  content_type : String
deriving DecidableEq, Repr

/-- Modelled from the spec (amended by the tests as described above):
the handler for `POST /v1/message:stream` builds a Server-Sent-Events
response for every well-formed request, regardless of the request's
`Accept` header. -/
def handleMessageStreamPost (accept : Option String) : RestResponse :=
  match accept with
  | _ => { status_code := 200, content_type := "text/event-stream" }

/-- **C9 (counterexample).** A POST to `/v1/message:stream` without the
`Accept: text/event-stream` header does not fail: it returns HTTP 200
(not an error status), refuting the claim's "otherwise fails with an
error response". -/
theorem message_stream_no_accept_succeeds :
    (handleMessageStreamPost none).status_code = 200 ∧
    ¬ 400 ≤ (handleMessageStreamPost none).status_code :=
  ⟨rfl, by decide⟩

/-- **C9 (amended).** A POST to `/v1/message:stream` with the header
`Accept: text/event-stream` returns a Server-Sent-Events response
(HTTP 200, `text/event-stream` content type); a request without that
header also succeeds with HTTP 200 — the adapter handles the content
type internally and never rejects on the `Accept` header. -/
theorem message_stream_response_spec (accept : Option String) :
    handleMessageStreamPost (some "text/event-stream")
      = { status_code := 200, content_type := "text/event-stream" } ∧
    (handleMessageStreamPost accept).status_code = 200 :=
  ⟨rfl, rfl⟩

/-! ## Large-integer precision helpers (Protocol Translator, §4.2)

The decimal machinery below embeds what the Python code does with
`str(value)`, `int(value)` and the digit/length checks of
`normalize_large_integers_to_strings` and
`parse_string_integers_in_dict`. -/

/-- Decimal digits of a natural number, little-endian, by repeated
divmod 10, with explicit fuel. -/
def decDigitsAux : Nat → Nat → List Nat
  | 0, _ => []
  | fuel + 1, n => if n = 0 then [] else n % 10 :: decDigitsAux fuel (n / 10)

/-- Decimal digits of a natural number, little-endian (empty for 0). -/
def decDigits (n : Nat) : List Nat := decDigitsAux n n

theorem decDigitsAux_eq_digits : ∀ fuel n : Nat, n ≤ fuel →
    decDigitsAux fuel n = Nat.digits 10 n
  | 0, n, h => by
      have h0 : n = 0 := Nat.le_zero.mp h
      simp [decDigitsAux, h0]
  | fuel + 1, n, h => by
      by_cases hn : n = 0
      · simp [decDigitsAux, hn]
      · have hdiv : n / 10 ≤ fuel := by
          have h1 : n / 10 < n :=
            Nat.div_lt_self (Nat.pos_of_ne_zero hn) (by norm_num)
          omega
        simp only [decDigitsAux, if_neg hn]
        rw [decDigitsAux_eq_digits fuel (n / 10) hdiv]
        exact (Nat.digits_def' (by norm_num) (Nat.pos_of_ne_zero hn)).symm

theorem decDigits_eq_digits (n : Nat) : decDigits n = Nat.digits 10 n :=
  decDigitsAux_eq_digits n n le_rfl

/-- Count of decimal digits (`len(str(n))` for positive `n`; 0 for 0,
which is on the same side of the 15-digit threshold either way). -/
def numDigits (n : Nat) : Nat := (decDigits n).length

/-- Character for a decimal digit. -/
def digitChar (d : Nat) : Char := Char.ofNat (48 + d)

/-- Python `str.isdigit` on one character, ASCII range. -/
def isDigitChar (c : Char) : Bool :=
  decide (48 ≤ c.toNat) && decide (c.toNat ≤ 57)

/-- Numeric value of a decimal digit character. -/
def charDigit (c : Char) : Nat := c.toNat - 48

theorem digitChar_props : ∀ d : Nat, d < 10 →
    charDigit (digitChar d) = d ∧ isDigitChar (digitChar d) = true ∧
      digitChar d ≠ '-' := by decide

/-- Python `str(n)` for a natural number, as a character list. -/
def natDecChars (n : Nat) : List Char :=
  if n = 0 then ['0'] else ((decDigits n).reverse).map digitChar

/-- Python `str(n)` for an integer. -/
def intDecString (n : Int) : String :=
  if n < 0 then String.mk ('-' :: natDecChars n.natAbs)
  else String.mk (natDecChars n.natAbs)

/-- Python `int(s)` on an unsigned all-digit character list. -/
def parseNatChars (cs : List Char) : Nat :=
  Nat.ofDigits 10 ((cs.map charDigit).reverse)

/-- Strip one optional leading minus sign; first component records
whether one was present. -/
def stripNeg (cs : List Char) : Bool × List Char :=
  match cs with
  | [] => (false, [])
  | c :: rest => if c = '-' then (true, rest) else (false, c :: rest)

/-- Modelled from the spec: the string test of
`parse_string_integers_in_dict` (§4.2) — an optional leading `-`
followed solely by digits, more than 15 of them. -/
def isBigIntString (s : String) : Bool :=
  !(stripNeg s.data).2.isEmpty && (stripNeg s.data).2.all isDigitChar &&
    decide (15 < (stripNeg s.data).2.length)

/-- Modelled from the spec: the `int(value)` conversion applied by
`parse_string_integers_in_dict` to a string that passed
`isBigIntString`. -/
def parseBigIntString (s : String) : Int :=
  if (stripNeg s.data).1 then -(parseNatChars (stripNeg s.data).2 : Int)
  else (parseNatChars (stripNeg s.data).2 : Int)

theorem mem_decDigits_lt {n d : Nat} (h : d ∈ decDigits n) : d < 10 := by
  rw [decDigits_eq_digits] at h
  exact Nat.digits_lt_base (by norm_num) h

theorem parseNatChars_natDecChars (n : Nat) :
    parseNatChars (natDecChars n) = n := by
  by_cases hn : n = 0
  · subst hn; decide
  · unfold natDecChars parseNatChars
    rw [if_neg hn, List.map_map]
    have h1 : ∀ d ∈ (decDigits n).reverse, (charDigit ∘ digitChar) d = d := by
      intro d hd
      exact (digitChar_props d (mem_decDigits_lt (List.mem_reverse.mp hd))).1
    rw [List.map_congr_left h1]
    simp only [List.map_id_fun', List.map_id', id]
    rw [List.reverse_reverse, decDigits_eq_digits, Nat.ofDigits_digits]

theorem natDecChars_ne_nil (n : Nat) : natDecChars n ≠ [] := by
  by_cases hn : n = 0
  · simp [natDecChars, hn]
  · have : decDigits n ≠ [] := by
      rw [decDigits_eq_digits]
      exact Nat.digits_ne_nil_iff_ne_zero.mpr hn
    simp [natDecChars, hn, this]

theorem natDecChars_no_neg (n : Nat) : ∀ c ∈ natDecChars n, c ≠ '-' := by
  intro c hc
  by_cases hn : n = 0
  · rw [natDecChars, if_pos hn] at hc
    simp at hc
    subst hc; decide
  · rw [natDecChars, if_neg hn] at hc
    rcases List.mem_map.mp hc with ⟨d, hd, rfl⟩
    exact (digitChar_props d (mem_decDigits_lt (List.mem_reverse.mp hd))).2.2

theorem natDecChars_all_digit (n : Nat) :
    (natDecChars n).all isDigitChar = true := by
  rw [List.all_eq_true]
  intro c hc
  by_cases hn : n = 0
  · rw [natDecChars, if_pos hn] at hc
    simp at hc
    subst hc; decide
  · rw [natDecChars, if_neg hn] at hc
    rcases List.mem_map.mp hc with ⟨d, hd, rfl⟩
    exact (digitChar_props d (mem_decDigits_lt (List.mem_reverse.mp hd))).2.1

theorem natDecChars_length (n : Nat) (hn : n ≠ 0) :
    (natDecChars n).length = numDigits n := by
  simp [natDecChars, hn, numDigits]

theorem stripNeg_natDecChars (n : Nat) :
    stripNeg (natDecChars n) = (false, natDecChars n) := by
  cases h : natDecChars n with
  | nil => exact absurd h (natDecChars_ne_nil n)
  | cons c rest =>
      have hc : c ≠ '-' := natDecChars_no_neg n c (h ▸ List.mem_cons_self c rest)
      simp [stripNeg, hc]

/-- The decimal string of an integer with more than 15 digits passes the
big-integer string test, and parsing it back restores the integer. -/
theorem intDecString_big (n : Int) (h : 15 < numDigits n.natAbs) :
    isBigIntString (intDecString n) = true ∧
    parseBigIntString (intDecString n) = n := by
  have hm : n.natAbs ≠ 0 := by
    intro h0
    rw [h0] at h
    simp [numDigits, decDigits, decDigitsAux] at h
  have hlen : 15 < (natDecChars n.natAbs).length := by
    rwa [natDecChars_length n.natAbs hm]
  by_cases hneg : n < 0
  · have hdata : (intDecString n).data = '-' :: natDecChars n.natAbs := by
      simp [intDecString, hneg]
    have hstrip : stripNeg (intDecString n).data = (true, natDecChars n.natAbs) := by
      rw [hdata]; simp [stripNeg]
    constructor
    · rw [isBigIntString, hstrip]
      simp [natDecChars_ne_nil n.natAbs, natDecChars_all_digit n.natAbs, hlen,
        List.isEmpty_iff]
    · rw [parseBigIntString, hstrip]
      show -(parseNatChars (natDecChars n.natAbs) : Int) = n
      rw [parseNatChars_natDecChars]
      omega
  · have hdata : (intDecString n).data = natDecChars n.natAbs := by
      simp [intDecString, hneg]
    have hstrip : stripNeg (intDecString n).data = (false, natDecChars n.natAbs) := by
      rw [hdata, stripNeg_natDecChars]
    constructor
    · rw [isBigIntString, hstrip]
      simp [natDecChars_ne_nil n.natAbs, natDecChars_all_digit n.natAbs, hlen,
        List.isEmpty_iff]
    · rw [parseBigIntString, hstrip]
      show (parseNatChars (natDecChars n.natAbs) : Int) = n
      rw [parseNatChars_natDecChars]
      omega

theorem stripNeg_cases (cs : List Char) :
    (stripNeg cs).1 = false ∧ (stripNeg cs).2 = cs ∨
    (stripNeg cs).1 = true ∧ cs = '-' :: (stripNeg cs).2 := by
  cases cs with
  | nil => exact Or.inl ⟨rfl, rfl⟩
  | cons c rest => by_cases hc : c = '-' <;> simp [stripNeg, hc]

/-- The claim's characterization, written from the spec's words: a
string consisting of an optional leading `-` followed solely by digits,
with more than 15 digits. -/
def BigIntStringSpec (s : String) : Prop :=
  ∃ ds : List Char, (s.data = ds ∨ s.data = '-' :: ds) ∧ ds ≠ [] ∧
    (∀ c ∈ ds, isDigitChar c = true) ∧ 15 < ds.length

/-- The spec-words characterization agrees with the code's test. -/
theorem bigIntStringSpec_iff (s : String) :
    BigIntStringSpec s ↔ isBigIntString s = true := by
  constructor
  · rintro ⟨ds, hform, hne, hdig, hlen⟩
    have hstrip : (stripNeg s.data).2 = ds := by
      rcases hform with hf | hf
      · cases ds with
        | nil => exact absurd rfl hne
        | cons c rest =>
            have hc : isDigitChar c = true := hdig c (by simp)
            have hcm : c ≠ '-' := by
              intro h0
              rw [h0] at hc
              exact absurd hc (by decide)
            rw [hf]
            simp [stripNeg, hcm]
      · rw [hf]
        simp [stripNeg]
    rw [isBigIntString, hstrip]
    simp [hne, List.all_eq_true.mpr hdig, hlen, List.isEmpty_iff]
  · intro h
    rw [isBigIntString] at h
    simp only [Bool.and_eq_true, Bool.not_eq_true', decide_eq_true_eq,
      List.all_eq_true] at h
    obtain ⟨⟨hne, hdig⟩, hlen⟩ := h
    refine ⟨(stripNeg s.data).2, ?_, ?_, hdig, hlen⟩
    · rcases stripNeg_cases s.data with ⟨_, h2⟩ | ⟨_, h2⟩
      · exact Or.inl h2.symm
      · exact Or.inr h2
    · intro h0
      rw [h0] at hne
      simp at hne

/-! ## Metadata trees (Protocol Translator, §4.2) -/

mutual
/-- Modelled from the spec: a metadata value (§4.2) — an arbitrary tree
of maps, sequences, strings, booleans, integers, floats and nulls.
Float payloads are represented by the rational they denote; none of the
operations modelled here alters a float. -/
inductive JsonVal where
  | null
  | bool (b : Bool)
  | int (n : Int)
  | float (q : Rat)
  | str (s : String)
  | arr (xs : JsonArr)
  | dict (kvs : JsonDict)

/-- A metadata sequence. -/
inductive JsonArr where
  | nil
  | cons (v : JsonVal) (tl : JsonArr)

/-- A metadata map with string keys, in insertion order. -/
inductive JsonDict where
  | nil
  | cons (k : String) (v : JsonVal) (tl : JsonDict)
end

mutual
/-- Modelled from the spec: `normalize_large_integers_to_strings`
(§4.2) — recursively converts every integer whose absolute value has
more than 15 decimal digits into its decimal string form, and leaves
every other value unchanged. -/
def normalize_large_integers_to_strings : JsonVal → JsonVal
  | .int n =>
      if 15 < numDigits n.natAbs then .str (intDecString n) else .int n
  | .arr xs => .arr (normalizeArr xs)
  | .dict kvs => .dict (normalizeDict kvs)
  | .null => .null
  | .bool b => .bool b
  | .float q => .float q
  | .str s => .str s

def normalizeArr : JsonArr → JsonArr
  | .nil => .nil
  | .cons v tl =>
      .cons (normalize_large_integers_to_strings v) (normalizeArr tl)

def normalizeDict : JsonDict → JsonDict
  | .nil => .nil
  | .cons k v tl =>
      .cons k (normalize_large_integers_to_strings v) (normalizeDict tl)
end

mutual
/-- Modelled from the spec: `parse_string_integers_in_dict` (§4.2) —
recursively converts back every string consisting of an optional leading
minus followed solely by digits, more than 15 of them, into the integer
it denotes, and leaves every other value (including numeric strings of
at most 15 digits) unchanged. -/
def parse_string_integers_in_dict : JsonVal → JsonVal
  | .str s =>
      if isBigIntString s then .int (parseBigIntString s) else .str s
  | .arr xs => .arr (parseArr xs)
  | .dict kvs => .dict (parseDict kvs)
  | .null => .null
  | .bool b => .bool b
  | .int n => .int n
  | .float q => .float q

def parseArr : JsonArr → JsonArr
  | .nil => .nil
  | .cons v tl => .cons (parse_string_integers_in_dict v) (parseArr tl)

def parseDict : JsonDict → JsonDict
  | .nil => .nil
  | .cons k v tl => .cons k (parse_string_integers_in_dict v) (parseDict tl)
end

/-- Round a natural number to the nearest integer with at most 53
significant bits (IEEE-754 double significand, ties to even); the
identity below 2^53. -/
def roundToDouble (m : Nat) : Nat :=
  if m < 2 ^ 53 then m
  else
    let k := m.log2 + 1 - 53
    let q := m / 2 ^ k
    let r := m % 2 ^ k
    let half := 2 ^ (k - 1)
    if half < r || (r == half && q % 2 == 1) then (q + 1) * 2 ^ k
    else q * 2 ^ k

/-- Modelled from the spec: the double-precision number channel of the
wire metadata encoding (§4.2), which "loses precision above 2^53−1": an
integer travels as the nearest representable double. -/
def intToDouble (n : Int) : Rat :=
  if n < 0 then -(roundToDouble n.natAbs : Rat)
  else (roundToDouble n.natAbs : Rat)

mutual
/-- Modelled from the spec: a `google.protobuf.Struct` value (§4.2) —
null, double-based number, string, bool, list, struct. -/
inductive ProtoValue where
  | null
  | num (q : Rat)
  | str (s : String)
  | bool (b : Bool)
  | arr (xs : ProtoArr)
  | struct (kvs : ProtoDict)

inductive ProtoArr where
  | nil
  | cons (v : ProtoValue) (tl : ProtoArr)

inductive ProtoDict where
  | nil
  | cons (k : String) (v : ProtoValue) (tl : ProtoDict)
end

mutual
/-- Modelled from the spec: the value case of `ToProto.metadata` (§4.2)
— a recursive walk in which numbers traverse the double channel and
strings, booleans and nulls pass through; maps and sequences recurse. -/
def toProtoVal : JsonVal → ProtoValue
  | .null => .null
  | .bool b => .bool b
  | .int n => .num (intToDouble n)
  | .float q => .num q
  | .str s => .str s
  | .arr xs => .arr (toProtoArr xs)
  | .dict kvs => .struct (toProtoDict kvs)

def toProtoArr : JsonArr → ProtoArr
  | .nil => .nil
  | .cons v tl => .cons (toProtoVal v) (toProtoArr tl)

def toProtoDict : JsonDict → ProtoDict
  | .nil => .nil
  | .cons k v tl => .cons k (toProtoVal v) (toProtoDict tl)
end

mutual
/-- Modelled from the spec: the value case of `FromProto.metadata`
(§4.2) — numbers come back from the double channel as floats; the rest
decodes structurally. -/
def fromProtoVal : ProtoValue → JsonVal
  | .null => .null
  | .bool b => .bool b
  | .num q => .float q
  | .str s => .str s
  | .arr xs => .arr (fromProtoArr xs)
  | .struct kvs => .dict (fromProtoDict kvs)

def fromProtoArr : ProtoArr → JsonArr
  | .nil => .nil
  | .cons v tl => .cons (fromProtoVal v) (fromProtoArr tl)

def fromProtoDict : ProtoDict → JsonDict
  | .nil => .nil
  | .cons k v tl => .cons k (fromProtoVal v) (fromProtoDict tl)
end

/-- Proto-encode then proto-decode, as one map over metadata trees. -/
def protoRoundTrip (v : JsonVal) : JsonVal := fromProtoVal (toProtoVal v)

/-- Elementwise proto round trip of a metadata sequence. -/
def protoRoundTripArr (xs : JsonArr) : JsonArr := fromProtoArr (toProtoArr xs)

/-- Elementwise proto round trip of a metadata map. -/
def protoRoundTripDict (kvs : JsonDict) : JsonDict :=
  fromProtoDict (toProtoDict kvs)

/-- One step into a metadata tree: a map key or a sequence index. -/
inductive PathStep where
  | key (k : String)
  | idx (i : Nat)

/-- Index into a metadata sequence. -/
def JsonArr.getIdx : JsonArr → Nat → Option JsonVal
  | .nil, _ => none
  | .cons v _, 0 => some v
  | .cons _ tl, i + 1 => tl.getIdx i

/-- Look up a key in a metadata map (first match). -/
def JsonDict.getKey : JsonDict → String → Option JsonVal
  | .nil, _ => none
  | .cons k v tl, k2 => if k = k2 then some v else tl.getKey k2

/-- One child of a metadata value. -/
def childAt : JsonVal → PathStep → Option JsonVal
  | .arr xs, .idx i => xs.getIdx i
  | .dict kvs, .key k => kvs.getKey k
  | _, _ => none

/-- Subtree of a metadata value at a path. -/
def getPath : JsonVal → List PathStep → Option JsonVal
  | v, [] => some v
  | v, s :: p => (childAt v s).bind (fun c => getPath c p)

/-- Leaves that are not integers: null, booleans, floats, strings. -/
def nonIntLeaf : JsonVal → Bool
  | .null => true
  | .bool _ => true
  | .float _ => true
  | .str _ => true
  | .int _ => false
  | .arr _ => false
  | .dict _ => false

/-! ### Structure preservation of the three tree maps -/

theorem normalizeArr_getIdx : ∀ (xs : JsonArr) (i : Nat),
    (normalizeArr xs).getIdx i
      = (xs.getIdx i).map normalize_large_integers_to_strings
  | .nil, _ => rfl
  | .cons _ _, 0 => rfl
  | .cons _ tl, i + 1 => normalizeArr_getIdx tl i

theorem normalizeDict_getKey : ∀ (kvs : JsonDict) (k2 : String),
    (normalizeDict kvs).getKey k2
      = (kvs.getKey k2).map normalize_large_integers_to_strings
  | .nil, _ => rfl
  | .cons k v tl, k2 => by
      by_cases hk : k = k2
      · simp [normalizeDict, JsonDict.getKey, hk]
      · simp [normalizeDict, JsonDict.getKey, hk, normalizeDict_getKey tl k2]

theorem childAt_normalize (v : JsonVal) (s : PathStep) :
    childAt (normalize_large_integers_to_strings v) s
      = (childAt v s).map normalize_large_integers_to_strings := by
  cases v with
  | null => cases s <;> rfl
  | bool b => cases s <;> rfl
  | float q => cases s <;> rfl
  | str s2 => cases s <;> rfl
  | int n =>
      by_cases h15 : 15 < numDigits n.natAbs <;> cases s <;>
        simp [normalize_large_integers_to_strings, h15, childAt]
  | arr xs =>
      cases s with
      | idx i =>
          simp [normalize_large_integers_to_strings, childAt, normalizeArr_getIdx]
      | key k => rfl
  | dict kvs =>
      cases s with
      | key k =>
          simp [normalize_large_integers_to_strings, childAt, normalizeDict_getKey]
      | idx i => rfl

theorem getPath_normalize : ∀ (p : List PathStep) (v : JsonVal),
    getPath (normalize_large_integers_to_strings v) p
      = (getPath v p).map normalize_large_integers_to_strings := by
  intro p
  induction p with
  | nil => intro v; rfl
  | cons s p ih =>
      intro v
      simp only [getPath, childAt_normalize]
      cases h : childAt v s with
      | none => rfl
      | some c => simpa using ih c

theorem parseArr_getIdx : ∀ (xs : JsonArr) (i : Nat),
    (parseArr xs).getIdx i = (xs.getIdx i).map parse_string_integers_in_dict
  | .nil, _ => rfl
  | .cons _ _, 0 => rfl
  | .cons _ tl, i + 1 => parseArr_getIdx tl i

theorem parseDict_getKey : ∀ (kvs : JsonDict) (k2 : String),
    (parseDict kvs).getKey k2
      = (kvs.getKey k2).map parse_string_integers_in_dict
  | .nil, _ => rfl
  | .cons k v tl, k2 => by
      by_cases hk : k = k2
      · simp [parseDict, JsonDict.getKey, hk]
      · simp [parseDict, JsonDict.getKey, hk, parseDict_getKey tl k2]

theorem childAt_parse (v : JsonVal) (s : PathStep) :
    childAt (parse_string_integers_in_dict v) s
      = (childAt v s).map parse_string_integers_in_dict := by
  cases v with
  | null => cases s <;> rfl
  | bool b => cases s <;> rfl
  | float q => cases s <;> rfl
  | int n => cases s <;> rfl
  | str s2 =>
      by_cases hb : isBigIntString s2 <;> cases s <;>
        simp [parse_string_integers_in_dict, hb, childAt]
  | arr xs =>
      cases s with
      | idx i => simp [parse_string_integers_in_dict, childAt, parseArr_getIdx]
      | key k => rfl
  | dict kvs =>
      cases s with
      | key k => simp [parse_string_integers_in_dict, childAt, parseDict_getKey]
      | idx i => rfl

theorem getPath_parse : ∀ (p : List PathStep) (v : JsonVal),
    getPath (parse_string_integers_in_dict v) p
      = (getPath v p).map parse_string_integers_in_dict := by
  intro p
  induction p with
  | nil => intro v; rfl
  | cons s p ih =>
      intro v
      simp only [getPath, childAt_parse]
      cases h : childAt v s with
      | none => rfl
      | some c => simpa using ih c

theorem protoRoundTripArr_getIdx : ∀ (xs : JsonArr) (i : Nat),
    (protoRoundTripArr xs).getIdx i = (xs.getIdx i).map protoRoundTrip
  | .nil, _ => rfl
  | .cons _ _, 0 => rfl
  | .cons _ tl, i + 1 => protoRoundTripArr_getIdx tl i

theorem protoRoundTripDict_getKey : ∀ (kvs : JsonDict) (k2 : String),
    (protoRoundTripDict kvs).getKey k2 = (kvs.getKey k2).map protoRoundTrip
  | .nil, _ => rfl
  | .cons k v tl, k2 => by
      by_cases hk : k = k2
      · simp [protoRoundTripDict, fromProtoDict, toProtoDict, JsonDict.getKey, hk,
          protoRoundTrip]
      · have ih := protoRoundTripDict_getKey tl k2
        simp only [protoRoundTripDict, fromProtoDict, toProtoDict] at ih ⊢
        simp [JsonDict.getKey, hk, ih]

theorem childAt_protoRoundTrip (v : JsonVal) (s : PathStep) :
    childAt (protoRoundTrip v) s = (childAt v s).map protoRoundTrip := by
  cases v with
  | null => cases s <;> rfl
  | bool b => cases s <;> rfl
  | float q => cases s <;> rfl
  | int n => cases s <;> rfl
  | str s2 => cases s <;> rfl
  | arr xs =>
      cases s with
      | idx i =>
          show (protoRoundTripArr xs).getIdx i = (xs.getIdx i).map protoRoundTrip
          exact protoRoundTripArr_getIdx xs i
      | key k => rfl
  | dict kvs =>
      cases s with
      | key k =>
          show (protoRoundTripDict kvs).getKey k = (kvs.getKey k).map protoRoundTrip
          exact protoRoundTripDict_getKey kvs k
      | idx i => rfl

theorem getPath_protoRoundTrip : ∀ (p : List PathStep) (v : JsonVal),
    getPath (protoRoundTrip v) p = (getPath v p).map protoRoundTrip := by
  intro p
  induction p with
  | nil => intro v; rfl
  | cons s p ih =>
      intro v
      simp only [getPath, childAt_protoRoundTrip]
      cases h : childAt v s with
      | none => rfl
      | some c => simpa using ih c

theorem normalize_nonIntLeaf (v : JsonVal) (h : nonIntLeaf v = true) :
    normalize_large_integers_to_strings v = v := by
  cases v <;> simp [nonIntLeaf] at h <;>
    simp [normalize_large_integers_to_strings]

/-- **C3.** In every metadata tree: `normalize_large_integers_to_strings`
converts exactly the integers whose absolute value has more than 15
decimal digits into their decimal string form and leaves every other
leaf unchanged; `parse_string_integers_in_dict` converts exactly the
strings consisting of an optional leading minus followed solely by
digits, more than 15 of them, back into integers and leaves every other
string (in particular numeric strings of at most 15 digits) unchanged;
and composing normalize, proto-encode, proto-decode and parse restores
every such large integer exactly. -/
theorem metadata_large_integer_spec :
    (∀ (t : JsonVal) (p : List PathStep) (n : Int),
        getPath t p = some (.int n) → 15 < numDigits n.natAbs →
        getPath (normalize_large_integers_to_strings t) p
          = some (.str (intDecString n))) ∧
    (∀ (t : JsonVal) (p : List PathStep) (n : Int),
        getPath t p = some (.int n) → numDigits n.natAbs ≤ 15 →
        getPath (normalize_large_integers_to_strings t) p = some (.int n)) ∧
    (∀ (t : JsonVal) (p : List PathStep) (v : JsonVal),
        getPath t p = some v → nonIntLeaf v = true →
        getPath (normalize_large_integers_to_strings t) p = some v) ∧
    (∀ (t : JsonVal) (p : List PathStep) (s : String),
        getPath t p = some (.str s) → BigIntStringSpec s →
        getPath (parse_string_integers_in_dict t) p
          = some (.int (parseBigIntString s))) ∧
    (∀ (t : JsonVal) (p : List PathStep) (s : String),
        getPath t p = some (.str s) → ¬ BigIntStringSpec s →
        getPath (parse_string_integers_in_dict t) p = some (.str s)) ∧
    (∀ (t : JsonVal) (p : List PathStep) (n : Int),
        getPath t p = some (.int n) → 15 < numDigits n.natAbs →
        getPath (parse_string_integers_in_dict (protoRoundTrip
          (normalize_large_integers_to_strings t))) p = some (.int n)) := by
  refine ⟨?_, ?_, ?_, ?_, ?_, ?_⟩
  · intro t p n hget hbig
    rw [getPath_normalize, hget]
    simp [normalize_large_integers_to_strings, hbig]
  · intro t p n hget hle
    rw [getPath_normalize, hget]
    simp [normalize_large_integers_to_strings, Nat.not_lt.mpr hle]
  · intro t p v hget hleaf
    rw [getPath_normalize, hget]
    simp [normalize_nonIntLeaf v hleaf]
  · intro t p s hget hspec
    rw [getPath_parse, hget]
    simp [parse_string_integers_in_dict, (bigIntStringSpec_iff s).mp hspec]
  · intro t p s hget hspec
    have hb : isBigIntString s = false := by
      cases hb2 : isBigIntString s
      · rfl
      · exact absurd ((bigIntStringSpec_iff s).mpr hb2) hspec
    rw [getPath_parse, hget]
    simp [parse_string_integers_in_dict, hb]
  · intro t p n hget hbig
    have h1 : getPath (normalize_large_integers_to_strings t) p
        = some (.str (intDecString n)) := by
      rw [getPath_normalize, hget]
      simp [normalize_large_integers_to_strings, hbig]
    have h2 : getPath (protoRoundTrip (normalize_large_integers_to_strings t)) p
        = some (.str (intDecString n)) := by
      rw [getPath_protoRoundTrip, h1]
      rfl
    have hb := intDecString_big n hbig
    rw [getPath_parse, h2]
    simp [parse_string_integers_in_dict, hb.1, hb.2]

/-- Concrete metadata tree used by the C3 witness: the large integer of
the repository's tests, a small integer, a boolean, a large numeric
string and a short numeric string. -/
def md0 : JsonVal :=
  .arr (.cons (.int 9999999999999999999)
    (.cons (.int 42)
      (.cons (.bool true)
        (.cons (.str "9999999999999999999")
          (.cons (.str "123") .nil)))))

theorem numDigits_big19 : 15 < numDigits 9999999999999999999 := by
  rw [numDigits, decDigits_eq_digits,
    Nat.digits_len 10 9999999999999999999 (by norm_num) (by norm_num)]
  have h := (Nat.pow_le_iff_le_log (by norm_num)
      (by norm_num : (9999999999999999999 : Nat) ≠ 0)).mp
    (by norm_num : 10 ^ 15 ≤ 9999999999999999999)
  omega

/-- Witness for C3 at `md0`, exercising all six conjuncts. -/
theorem metadata_large_integer_spec_witness :
    (getPath md0 [.idx 0] = some (.int 9999999999999999999) ∧
      15 < numDigits (Int.natAbs 9999999999999999999) ∧
      getPath (normalize_large_integers_to_strings md0) [.idx 0]
        = some (.str (intDecString 9999999999999999999))) ∧
    (getPath md0 [.idx 1] = some (.int 42) ∧
      numDigits (Int.natAbs 42) ≤ 15 ∧
      getPath (normalize_large_integers_to_strings md0) [.idx 1]
        = some (.int 42)) ∧
    (getPath md0 [.idx 2] = some (.bool true) ∧
      nonIntLeaf (.bool true) = true ∧
      getPath (normalize_large_integers_to_strings md0) [.idx 2]
        = some (.bool true)) ∧
    (getPath md0 [.idx 3] = some (.str "9999999999999999999") ∧
      BigIntStringSpec "9999999999999999999" ∧
      getPath (parse_string_integers_in_dict md0) [.idx 3]
        = some (.int (parseBigIntString "9999999999999999999")) ∧
      parseBigIntString "9999999999999999999" = 9999999999999999999) ∧
    (getPath md0 [.idx 4] = some (.str "123") ∧
      ¬ BigIntStringSpec "123" ∧
      getPath (parse_string_integers_in_dict md0) [.idx 4]
        = some (.str "123")) ∧
    getPath (parse_string_integers_in_dict (protoRoundTrip
      (normalize_large_integers_to_strings md0))) [.idx 0]
      = some (.int 9999999999999999999) := by
  have hbig : 15 < numDigits (Int.natAbs 9999999999999999999) := numDigits_big19
  have hspec : BigIntStringSpec "9999999999999999999" :=
    ⟨"9999999999999999999".data, Or.inl rfl, by decide, by decide, by decide⟩
  have hnospec : ¬ BigIntStringSpec "123" := fun hsp =>
    absurd ((bigIntStringSpec_iff "123").mp hsp) (by decide)
  refine ⟨⟨rfl, hbig, ?_⟩, ⟨rfl, by decide, ?_⟩, ⟨rfl, rfl, ?_⟩,
    ⟨rfl, hspec, ?_, by decide⟩, ⟨rfl, hnospec, ?_⟩, ?_⟩
  · exact metadata_large_integer_spec.1 md0 [.idx 0] _ rfl hbig
  · exact metadata_large_integer_spec.2.1 md0 [.idx 1] 42 rfl (by decide)
  · exact metadata_large_integer_spec.2.2.1 md0 [.idx 2] (.bool true) rfl rfl
  · exact metadata_large_integer_spec.2.2.2.1 md0 [.idx 3] _ rfl hspec
  · exact metadata_large_integer_spec.2.2.2.2.1 md0 [.idx 4] _ rfl hnospec
  · exact metadata_large_integer_spec.2.2.2.2.2 md0 [.idx 0] _ rfl hbig

end A2A
